import Mathlib

/-!
Verification of the Target Orchestration Engine of the `shellOS` repository
(`src/engine/continuum_engine/{install,pull,create}/manager.py`).

The three domain managers share one structure: a dependency resolver
(`_resolve_targets`, a DFS over a registry of targets and bundles with
`visiting`/`visited` sets), an action executor (`install_target` /
`pull_target` / `create_target`, a check → act → verify loop over the
resolved plan that records outcomes in a JSON state artifact), and a
read-only doctor pass (`run_doctor`).

This file embeds those functions shallowly: Python dicts become association
lists, closures with side effects become oracle records of `Except`-valued
results, the state file becomes an `Artifact` value, prints are dropped, and
the observable call sequence (prompt / check / act / verify / save) is
recorded in an event list.  Python's unbounded recursion in the resolver is
embedded with an explicit fuel argument; `resolveFuel` is large enough that
the fuel never runs out on acyclic inputs (proved below).
-/

namespace Continuum

/-- Decidable equality for `Except`, used to evaluate the embedding on
concrete inputs. -/
instance {ε α : Type} [DecidableEq ε] [DecidableEq α] : DecidableEq (Except ε α) := fun x y =>
  match x, y with
  | .error a, .error b =>
    if h : a = b then .isTrue (by rw [h]) else .isFalse (by simp [h])
  | .ok a, .ok b =>
    if h : a = b then .isTrue (by rw [h]) else .isFalse (by simp [h])
  | .error _, .ok _ => .isFalse (by simp)
  | .ok _, .error _ => .isFalse (by simp)

/-- Errors raised by `_resolve_targets`: `RuntimeError("Cycle detected ...")`,
`RuntimeError("Unknown ... target: ...")`.  `fuelOut` is an artifact of the
fuel-based embedding; it has no Python counterpart and is proved unreachable
for acyclic registries. -/
inductive RErr where
  | cycle (t : String)
  | unknown (t : String)
  | fuelOut
deriving DecidableEq, Repr

/-- A registry side: Python's `dict[str, list[str]]` (id ↦ dependency list for
installers/pullers/creators, id ↦ member list for bundles), as an association
list in declaration order. -/
abbrev Registry := List (String × List String)

/-- First-match association-list lookup, the embedding of `d[k]` / `k in d`. -/
def lookupId : Registry → String → Option (List String)
  | [], _ => none
  | (k, v) :: rest, t => if k = t then some v else lookupId rest t

/-- The mutable state of `_resolve_targets`: the output list `resolved` and
the two sets `visiting` and `visited` (modelled as lists). -/
structure RState where
  resolved : List String
  visiting : List String
  visited : List String
deriving DecidableEq, Repr

/-- The DFS of `_resolve_targets`, processing a worklist of ids.  Mirrors
`visit`: skip ids already in `visited`; raise on ids in `visiting` (cycle);
otherwise push onto `visiting`, recurse into bundle members or installer
dependencies, append installer ids to `resolved`, then move the id from
`visiting` to `visited`.  Bundles are consulted before installers, as in the
source.  Every recursive call decrements `fuel`. -/
def visitMany (installers bundles : Registry) : Nat → List String → RState → Except RErr RState
  | _, [], s => .ok s
  | 0, _ :: _, _ => .error .fuelOut
  | fuel + 1, t :: ts, s =>
    if t ∈ s.visited then
      visitMany installers bundles fuel ts s
    else if t ∈ s.visiting then
      .error (.cycle t)
    else
      let s1 : RState := { s with visiting := t :: s.visiting }
      match lookupId bundles t with
      | some subs =>
        match visitMany installers bundles fuel subs s1 with
        | .error e => .error e
        | .ok s2 =>
          visitMany installers bundles fuel ts
            { s2 with visiting := s2.visiting.erase t, visited := t :: s2.visited }
      | none =>
        match lookupId installers t with
        | some deps =>
          match visitMany installers bundles fuel deps s1 with
          | .error e => .error e
          | .ok s2 =>
            visitMany installers bundles fuel ts
              { s2 with resolved := s2.resolved ++ [t],
                        visiting := s2.visiting.erase t, visited := t :: s2.visited }
        | none => .error (.unknown t)

/-- The longest member/dependency list in the registry. -/
def registryMaxLen (installers bundles : Registry) : Nat :=
  ((bundles ++ installers).map (fun p => p.2.length)).foldr max 0

/-- Fuel budget for `visitMany`; sufficient for every acyclic registry
(theorem `visitMany_total`). -/
def resolveFuel (installers bundles : Registry) (targets : List String) : Nat :=
  targets.length +
    (bundles.length + installers.length) * (registryMaxLen installers bundles + 1)

/-- The embedding of `_resolve_targets(targets, installers, bundles)`. -/
def resolveTargets (installers bundles : Registry) (targets : List String) :
    Except RErr (List String) :=
  match visitMany installers bundles (resolveFuel installers bundles targets) targets ⟨[], [], []⟩ with
  | .error e => .error e
  | .ok s => .ok s.resolved

/-- The plan invariant of the spec: whenever an id occurs in the list, all of
its declared dependencies that are not bundle ids occur strictly before it. -/
def ResolvedClosed (I B : Registry) (l : List String) : Prop :=
  ∀ l1 i l2, l = l1 ++ i :: l2 → ∀ deps, lookupId B i = none →
    lookupId I i = some deps → ∀ d ∈ deps, lookupId B d = none → d ∈ l1

/-- DFS state invariant: the output is duplicate-free, output ids are
`visited`, every non-bundle `visited` id has been emitted, and the output
satisfies the plan invariant. -/
def Good (I B : Registry) (s : RState) : Prop :=
  s.resolved.Nodup ∧
  (∀ v ∈ s.resolved, v ∈ s.visited) ∧
  (∀ v ∈ s.visited, lookupId B v = none → v ∈ s.resolved) ∧
  ResolvedClosed I B s.resolved

/-- The dependency/bundle edge relation the DFS follows: a bundle points to
its members; a non-bundle installer points to its dependencies (the bundle
registry shadows the installer registry, as in the source). -/
def Edge (I B : Registry) (v w : String) : Prop :=
  (∃ subs, lookupId B v = some subs ∧ w ∈ subs) ∨
  (lookupId B v = none ∧ ∃ deps, lookupId I v = some deps ∧ w ∈ deps)

/-- Reachability along `Edge`. -/
def Reaches (I B : Registry) : String → String → Prop :=
  Relation.ReflTransGen (Edge I B)

/-- The `visited` set is closed under outgoing edges. -/
def VisClosed (I B : Registry) (s : RState) : Prop :=
  ∀ v ∈ s.visited, ∀ w, Edge I B v w → w ∈ s.visited

/-- An id is known to the registry (as a bundle or as an installer). -/
def KnownId (I B : Registry) (t : String) : Prop :=
  (lookupId B t).isSome = true ∨ (lookupId I t).isSome = true

instance (I B : Registry) (t : String) : Decidable (KnownId I B t) := by
  unfold KnownId
  exact inferInstance

/-- Acyclicity certificate: every registry edge strictly decreases `rank`,
and all mentioned ids are known. -/
def ClosedDecreasing (I B : Registry) (rank : String → Nat) : Prop :=
  (∀ p ∈ B, ∀ m ∈ p.2, KnownId I B m ∧ rank m < rank p.1) ∧
  (∀ p ∈ I, ∀ d ∈ p.2, KnownId I B d ∧ rank d < rank p.1)

/-! ## Executor embedding -/

/-- Per-target behavior of the three opaque callables during one invocation:
`check` may return a Bool or raise, `act` (named `install`/`pull`/`create`
in the three domains) and `verify` may return or raise; a raise carries the
exception text `str(e)`. -/
structure TB where
  check : Except String Bool
  act : Except String Unit
  verify : Except String Unit

/-- The per-invocation context (`InstallContext`/`PullContext`/
`CreateContext`): the workspace path and the one-shot apt flag are not
modelled, the three flags are. -/
structure Ctx where
  dry_run : Bool
  debug : Bool
  yes : Bool
deriving DecidableEq, Repr

/-- One row of the per-target state map: `{last_run, last_result,
last_error}`, the ISO timestamp modelled as a `Nat` clock value. -/
structure Entry where
  last_run : Nat
  last_result : String
  last_error : Option String
deriving DecidableEq, Repr

/-- The in-memory state map (a Python dict in insertion order). -/
abbrev StateMap := List (String × Entry)

/-- The persisted state artifact under `.continuum/state/<domain>.json`:
missing file, unparsable file, or parsed content. -/
inductive Artifact where
  | absent
  | corrupt
  | valid (s : StateMap)
deriving DecidableEq, Repr

/-- `_load_state`: `{}` when the artifact is missing, `{}` when parsing
raises, the parsed map otherwise; never raises. -/
def loadState : Artifact → StateMap
  | .absent => []
  | .corrupt => []
  | .valid s => s

/-- `_save_state`: the artifact is overwritten with the serialized map. -/
def saveState (s : StateMap) : Artifact := .valid s

/-- Python dict assignment `state[iid] = {...}`: replace in place when the
key exists, append otherwise. -/
def stateUpdate (st : StateMap) (k : String) (now : Nat) (result : String)
    (err : Option String) : StateMap :=
  if st.any (fun p => p.1 == k) then
    st.map (fun p => if p.1 == k then (k, ⟨now, result, err⟩) else p)
  else st ++ [(k, ⟨now, result, err⟩)]

/-- Python dict read on the embedded state map. -/
def lookupEntry : StateMap → String → Option Entry
  | [], _ => none
  | (k, v) :: rest, t => if k = t then some v else lookupEntry rest t

/-- The observable calls made by one engine invocation, in order. -/
inductive Ev where
  | prompt
  | check (id : String)
  | act (id : String)
  | verify (id : String)
  | save
deriving DecidableEq, Repr

/-- Result of the check/act/verify loop: exit code, final in-memory map,
final artifact, events in call order. -/
structure RunRes where
  code : Nat
  state : StateMap
  disk : Artifact
  events : List Ev
deriving DecidableEq, Repr

/-- The `for iid in <plan>` loop shared verbatim by `install_target`,
`pull_target` and `create_target`; the three differ only in the label
recorded when `check()` returns true (`already` below).  An exception from
check/act/verify records `failed` with the exception text, saves the state
(unless dry-run) and returns 1; a full pass saves the state (unless
dry-run) and returns 0. -/
def runPlanLoop (bhv : String → TB) (already : String) (ctx : Ctx) (now : Nat)
    (disk : Artifact) : List String → StateMap → RunRes
  | [], st =>
    if ctx.dry_run then ⟨0, st, disk, []⟩ else ⟨0, st, saveState st, [.save]⟩
  | iid :: rest, st =>
    match (bhv iid).check with
    | .error e =>
      let st2 := stateUpdate st iid now "failed" (some e)
      if ctx.dry_run then ⟨1, st2, disk, [.check iid]⟩
      else ⟨1, st2, saveState st2, [.check iid, .save]⟩
    | .ok true =>
      let r := runPlanLoop bhv already ctx now disk rest (stateUpdate st iid now already none)
      ⟨r.code, r.state, r.disk, .check iid :: r.events⟩
    | .ok false =>
      match (bhv iid).act with
      | .error e =>
        let st2 := stateUpdate st iid now "failed" (some e)
        if ctx.dry_run then ⟨1, st2, disk, [.check iid, .act iid]⟩
        else ⟨1, st2, saveState st2, [.check iid, .act iid, .save]⟩
      | .ok _ =>
        match (bhv iid).verify with
        | .error e =>
          let st2 := stateUpdate st iid now "failed" (some e)
          if ctx.dry_run then ⟨1, st2, disk, [.check iid, .act iid, .verify iid]⟩
          else ⟨1, st2, saveState st2, [.check iid, .act iid, .verify iid, .save]⟩
        | .ok _ =>
          let r := runPlanLoop bhv already ctx now disk rest (stateUpdate st iid now "success" none)
          ⟨r.code, r.state, r.disk, .check iid :: .act iid :: .verify iid :: r.events⟩

/-- The loop of `install_target` (label `already_installed`). -/
def installRunLoop (bhv : String → TB) (ctx : Ctx) (now : Nat) (disk : Artifact)
    (plan : List String) (st : StateMap) : RunRes :=
  runPlanLoop bhv "already_installed" ctx now disk plan st

/-- The loop of `pull_target` (label `already_present`). -/
def pullRunLoop (bhv : String → TB) (ctx : Ctx) (now : Nat) (disk : Artifact)
    (plan : List String) (st : StateMap) : RunRes :=
  runPlanLoop bhv "already_present" ctx now disk plan st

/-- The loop of `create_target` (label `already_created`). -/
def createRunLoop (bhv : String → TB) (ctx : Ctx) (now : Nat) (disk : Artifact)
    (plan : List String) (st : StateMap) : RunRes :=
  runPlanLoop bhv "already_created" ctx now disk plan st

/-- Python `str.lower()` (over the character list, so that the engine can
be evaluated by kernel reduction). -/
def strLower (s : String) : String := ⟨s.data.map Char.toLower⟩

/-- Python `str.strip()`: drop leading and trailing whitespace. -/
def strStrip (s : String) : String :=
  ⟨((s.data.dropWhile Char.isWhitespace).reverse.dropWhile Char.isWhitespace).reverse⟩

/-- `input(...).strip().lower() in {"y", "yes"}`. -/
def confirmAccepted (resp : String) : Bool :=
  strLower (strStrip resp) == "y" || strLower (strStrip resp) == "yes"

/-- The exception messages of `_resolve_targets` per domain. -/
def renderRErr (domain : String) : RErr → String
  | .cycle t => "Cycle detected in " ++ domain ++ " targets: " ++ t
  | .unknown t => "Unknown " ++ domain ++ " target: " ++ t
  | .fuelOut => "resolver fuel exhausted"

/-- Result of a whole `*_target` invocation: the return code, or the
uncaught exception text when resolution raised; plus the final artifact and
the events. -/
structure CmdRes where
  outcome : Except String Nat
  disk : Artifact
  events : List Ev
deriving DecidableEq, Repr

/-- `install_target(target, ctx)`: resolve (an uncaught `RuntimeError`
becomes `.error`), print the plan, prompt unless `ctx.yes` or
`ctx.dry_run`, load state, run the loop. -/
def installTarget (installers bundles : Registry) (bhv : String → TB)
    (target : String) (ctx : Ctx) (resp : String) (now : Nat) (disk : Artifact) : CmdRes :=
  match resolveTargets installers bundles [target] with
  | .error e => ⟨.error (renderRErr "install" e), disk, []⟩
  | .ok plan =>
    if !ctx.yes && !ctx.dry_run then
      if confirmAccepted resp then
        let r := installRunLoop bhv ctx now disk plan (loadState disk)
        ⟨.ok r.code, r.disk, .prompt :: r.events⟩
      else ⟨.ok 1, disk, [.prompt]⟩
    else
      let r := installRunLoop bhv ctx now disk plan (loadState disk)
      ⟨.ok r.code, r.disk, r.events⟩

/-- `pull_target(target, ctx)`: as `install_target` but the pull resolver
has no bundle branch (embedded as an empty bundle registry). -/
def pullTarget (pullers : Registry) (bhv : String → TB)
    (target : String) (ctx : Ctx) (resp : String) (now : Nat) (disk : Artifact) : CmdRes :=
  match resolveTargets pullers [] [target] with
  | .error e => ⟨.error (renderRErr "pull" e), disk, []⟩
  | .ok plan =>
    if !ctx.yes && !ctx.dry_run then
      if confirmAccepted resp then
        let r := pullRunLoop bhv ctx now disk plan (loadState disk)
        ⟨.ok r.code, r.disk, .prompt :: r.events⟩
      else ⟨.ok 1, disk, [.prompt]⟩
    else
      let r := pullRunLoop bhv ctx now disk plan (loadState disk)
      ⟨.ok r.code, r.disk, r.events⟩

/-- `create_target(target, ctx)`. -/
def createTarget (creators bundles : Registry) (bhv : String → TB)
    (target : String) (ctx : Ctx) (resp : String) (now : Nat) (disk : Artifact) : CmdRes :=
  match resolveTargets creators bundles [target] with
  | .error e => ⟨.error (renderRErr "create" e), disk, []⟩
  | .ok plan =>
    if !ctx.yes && !ctx.dry_run then
      if confirmAccepted resp then
        let r := createRunLoop bhv ctx now disk plan (loadState disk)
        ⟨.ok r.code, r.disk, .prompt :: r.events⟩
      else ⟨.ok 1, disk, [.prompt]⟩
    else
      let r := createRunLoop bhv ctx now disk plan (loadState disk)
      ⟨.ok r.code, r.disk, r.events⟩

/-! ## Doctor embedding -/

/-- First-occurrence de-duplication with a `seen` accumulator, as in the
install `run_doctor` default-target computation. -/
def dedupFirst : List String → List String → List String
  | [], _ => []
  | t :: ts, seen => if t ∈ seen then dedupFirst ts seen else t :: dedupFirst ts (t :: seen)

/-- The fixed doctor target list of the install domain: the `base`, `web`
and `ai` bundle members in order (missing bundle keys contribute nothing),
de-duplicated by first occurrence. -/
def doctorTargets (bundles : Registry) : List String :=
  dedupFirst ((["base", "web", "ai"].map (fun k => (lookupId bundles k).getD [])).flatten) []

/-- Environment oracle for the extra `ollama` section of the install
doctor: whether the `ollama` command exists, whether `ollama list` exits 0,
whether `systemctl` exists and reports the service active. -/
structure OllamaEnv where
  present : Bool
  listOK : Bool
  systemctlPresent : Bool
  activeOK : Bool
deriving DecidableEq, Repr

/-- The `ollama` entry of the install doctor report (an inactive service
reason overwrites a failed-list reason, as in the source). -/
def ollamaDoctor (env : OllamaEnv) : Option (String × Option String) :=
  if env.present then
    let r1 : Option String := if !env.listOK then some "ollama list failed" else none
    let r2 : Option String :=
      if env.systemctlPresent && !env.activeOK then some "ollama service inactive" else r1
    match r2 with
    | some reason => some ("installed (broken)", some reason)
    | none => some ("installed (ok)", none)
  else none

/-- One row of the install doctor report: id, status, reason. -/
structure InstallRow where
  id : String
  status : String
  reason : Option String
deriving DecidableEq, Repr

/-- The `ollama` section of the install doctor report. -/
structure OllamaRow where
  status : String
  reason : Option String
deriving DecidableEq, Repr

/-- The value of the install domain `run_doctor`: return code, per-installer
rows, `ollama` section, events. -/
structure InstallDoctorRes where
  code : Nat
  rows : List InstallRow
  ollama : Option OllamaRow
  events : List Ev
deriving DecidableEq, Repr

/-- Per-installer sweep of the install domain `run_doctor`: ids absent from
the registry are skipped; a `check()` exception is NOT caught here and
propagates; a `verify()` exception yields status `installed (broken)` with
reason `None`. -/
def installDoctorLoop (installers : Registry) (bhv : String → TB) :
    List String → Except String (List InstallRow × List Ev)
  | [] => .ok ([], [])
  | iid :: rest =>
    match lookupId installers iid with
    | none => installDoctorLoop installers bhv rest
    | some _ =>
      match (bhv iid).check with
      | .error e => .error e
      | .ok false =>
        match installDoctorLoop installers bhv rest with
        | .error e => .error e
        | .ok (rep, evs) => .ok (⟨iid, "missing", none⟩ :: rep, .check iid :: evs)
      | .ok true =>
        match (bhv iid).verify with
        | .ok _ =>
          match installDoctorLoop installers bhv rest with
          | .error e => .error e
          | .ok (rep, evs) =>
            .ok (⟨iid, "installed (ok)", none⟩ :: rep, .check iid :: .verify iid :: evs)
        | .error _ =>
          match installDoctorLoop installers bhv rest with
          | .error e => .error e
          | .ok (rep, evs) =>
            .ok (⟨iid, "installed (broken)", none⟩ :: rep, .check iid :: .verify iid :: evs)

/-- `run_doctor` of the install domain; the debug-only print block is not
modelled (it writes nothing to the report and cannot change the return
value).  Returns the report or the uncaught `check()` exception. -/
def runDoctorInstall (installers bundles : Registry) (bhv : String → TB) (env : OllamaEnv) :
    Except String InstallDoctorRes :=
  match installDoctorLoop installers bhv (doctorTargets bundles) with
  | .error e => .error e
  | .ok (rep, evs) =>
    .ok ⟨0, rep,
      (ollamaDoctor env).map (fun p => ⟨p.1, p.2⟩), evs⟩

/-- `DATA_MODELS` of the pull domain. -/
def DATA_MODELS : List String :=
  ["goekdenizguelmez/JOSIEFIED-Qwen3", "phi3:mini"]

/-- One row of the pull doctor report: id, status, `error` detail,
`missing_models` detail. -/
structure PullRow where
  id : String
  status : String
  errorDetail : Option String
  missingModels : Option (List String)
deriving DecidableEq, Repr

/-- One row of the pull domain `run_doctor`: the status from the fully
caught check/verify lifecycle, the `error` detail, and the
`missing_models`/`error` details added for `data_models` from
`_ollama_list` (modelled by the `olist` oracle; an `_ollama_list` failure
overwrites a previous `error` detail, as in the source). -/
def pullDoctorEntry (pid : String) (b : TB) (olist : Except String (List String)) : PullRow :=
  let base : String × Option String :=
    match b.check with
    | .error e => ("broken", some e)
    | .ok false => ("missing", none)
    | .ok true =>
      match b.verify with
      | .ok _ => ("ready", none)
      | .error e => ("broken", some e)
  if pid = "data_models" then
    match olist with
    | .ok models =>
      let missing := DATA_MODELS.filter (fun m => !(models.contains m))
      ⟨pid, base.1, base.2, if missing.isEmpty then none else some missing⟩
    | .error err => ⟨pid, base.1, some err, none⟩
  else ⟨pid, base.1, base.2, none⟩

/-- Events of one doctor row in the pull/create domains: `check` is always
called, `verify` only when the check returned `True`. -/
def doctorRowEvs (pid : String) (b : TB) : List Ev :=
  match b.check with
  | .ok true => [.check pid, .verify pid]
  | _ => [.check pid]

/-- The sweep of the pull domain `run_doctor`. -/
def pullDoctorLoop (olist : Except String (List String)) :
    List (String × TB) → List PullRow × List Ev
  | [] => ([], [])
  | (pid, b) :: rest =>
    let r := pullDoctorLoop olist rest
    (pullDoctorEntry pid b olist :: r.1, doctorRowEvs pid b ++ r.2)

/-- The value of the pull domain `run_doctor`. -/
structure PullDoctorRes where
  code : Nat
  rows : List PullRow
  events : List Ev
deriving DecidableEq, Repr

/-- `run_doctor` of the pull domain: every path returns 0. -/
def runDoctorPull (pullers : List (String × TB)) (olist : Except String (List String)) :
    PullDoctorRes :=
  ⟨0, (pullDoctorLoop olist pullers).1, (pullDoctorLoop olist pullers).2⟩

/-- One row of the create doctor report: id, status, reason. -/
structure CreateRow where
  id : String
  status : String
  reason : Option String
deriving DecidableEq, Repr

/-- One row of the create domain `run_doctor`: check/verify with all
exceptions caught; a broken row carries the exception text as its reason. -/
def createDoctorEntry (b : TB) : String × Option String :=
  match b.check with
  | .error e => ("broken", some e)
  | .ok false => ("missing", none)
  | .ok true =>
    match b.verify with
    | .ok _ => ("ready", none)
    | .error e => ("broken", some e)

/-- The sweep of the create domain `run_doctor`. -/
def createDoctorLoop : List (String × TB) → List CreateRow × List Ev
  | [] => ([], [])
  | (cid, b) :: rest =>
    let r := createDoctorLoop rest
    (⟨cid, (createDoctorEntry b).1, (createDoctorEntry b).2⟩ :: r.1, doctorRowEvs cid b ++ r.2)

/-- The value of the create domain `run_doctor`. -/
structure CreateDoctorRes where
  code : Nat
  rows : List CreateRow
  events : List Ev
deriving DecidableEq, Repr

/-- `run_doctor` of the create domain: every path returns 0. -/
def runDoctorCreate (creators : List (String × TB)) : CreateDoctorRes :=
  ⟨0, (createDoctorLoop creators).1, (createDoctorLoop creators).2⟩

/-! ## Concrete data for witnesses and counterexamples -/

/-- A one-target registry with no dependencies. -/
def regT : Registry := [("t", [])]

/-- Behavior: every check returns `True` (target already satisfied). -/
def bhvSatisfied : String → TB := fun _ => ⟨.ok true, .ok (), .ok ()⟩

/-- Behavior: check returns `False`, the action succeeds, verification
raises `"verify failed"`. -/
def bhvVerifyFails : String → TB := fun _ => ⟨.ok false, .ok (), .error "verify failed"⟩

/-- Behavior: check returns `True`, verification raises `"boom"`. -/
def bhvBroken : String → TB := fun _ => ⟨.ok true, .ok (), .error "boom"⟩

/-- Concrete behaviors for the fail-fast scenario: `a` satisfied, `b`
fails its action with `"apt failed"`, `c` untouched. -/
def bhvC4 : String → TB := fun t =>
  if t = "a" then ⟨.ok true, .ok (), .ok ()⟩
  else if t = "b" then ⟨.ok false, .error "apt failed", .ok ()⟩
  else ⟨.ok false, .ok (), .ok ()⟩

/-- A single broken behavior value (check true, verify raises `"boom"`). -/
def bhvBroken' : TB := ⟨.ok true, .ok (), .error "boom"⟩

/-- The registry slice used by the C8 doctor counterexample. -/
def regCurl : Registry := [("curl", [])]

/-- Bundles making `curl` the only doctor target. -/
def bundlesCurl : Registry := [("base", ["curl"])]

/-! ## Resolver invariants -/

/-- Basic facts preserved by a successful DFS run: the `visiting` set is
restored, `visited` only grows, `resolved` is only appended to, every id of
the processed worklist ends up in `visited`, and every id newly added to
`visited` was not in `visiting` at the start. -/
theorem visitMany_ok_inv (I B : Registry) :
    ∀ (fuel : Nat) (ts : List String) (s s' : RState),
      visitMany I B fuel ts s = .ok s' →
      s'.visiting = s.visiting ∧
      (∀ v ∈ s.visited, v ∈ s'.visited) ∧
      (∃ l, s'.resolved = s.resolved ++ l) ∧
      (∀ t ∈ ts, t ∈ s'.visited) ∧
      (∀ v ∈ s'.visited, v ∈ s.visited ∨ v ∉ s.visiting) := by
  intro fuel
  induction fuel with
  | zero =>
    intro ts s s' h
    cases ts with
    | nil =>
      simp only [visitMany, Except.ok.injEq] at h
      subst h
      exact ⟨rfl, fun v hv => hv, ⟨[], by simp⟩, by simp, fun v hv => .inl hv⟩
    | cons t ts =>
      simp only [visitMany] at h
      exact absurd h (by simp)
  | succ fuel ih =>
    intro ts s s' h
    cases ts with
    | nil =>
      simp only [visitMany, Except.ok.injEq] at h
      subst h
      exact ⟨rfl, fun v hv => hv, ⟨[], by simp⟩, by simp, fun v hv => .inl hv⟩
    | cons t ts =>
      simp only [visitMany] at h
      split at h
      · -- t already in visited: skip
        rename_i hvd
        obtain ⟨h1, h2, h3, h4, h5⟩ := ih ts s s' h
        refine ⟨h1, h2, h3, ?_, h5⟩
        intro u hu
        rcases List.mem_cons.mp hu with rfl | hu
        · exact h2 u hvd
        · exact h4 u hu
      · split at h
        · exact absurd h (by simp)
        · -- t fresh: pushed onto visiting
          rename_i hvd hvg
          split at h
          · -- bundle branch
            rename_i subs hb
            split at h
            · exact absurd h (by simp)
            · rename_i s2 hsub
              obtain ⟨g1, g2, g3, g4, g5⟩ := ih subs _ s2 hsub
              obtain ⟨k1, k2, k3, k4, k5⟩ := ih ts _ s' h
              dsimp only at g1 g2 g3 g4 g5 k1 k2 k3 k4 k5
              have herase : s2.visiting.erase t = s.visiting := by
                rw [g1]
                exact List.erase_cons_head t s.visiting
              refine ⟨?_, ?_, ?_, ?_, ?_⟩
              · rw [k1, herase]
              · intro v hv
                exact k2 v (List.mem_cons_of_mem _ (g2 v hv))
              · obtain ⟨l1, hl1⟩ := g3
                obtain ⟨l2, hl2⟩ := k3
                exact ⟨l1 ++ l2, by simp [hl2, hl1]⟩
              · intro u hu
                rcases List.mem_cons.mp hu with rfl | hu
                · exact k2 u (List.mem_cons_self _ _)
                · exact k4 u hu
              · intro v hv
                rcases k5 v hv with hv2 | hv2
                · rcases List.mem_cons.mp hv2 with rfl | hv2
                  · exact .inr hvg
                  · rcases g5 v hv2 with hv3 | hv3
                    · exact .inl hv3
                    · exact .inr fun hc => hv3 (List.mem_cons_of_mem _ hc)
                · rw [herase] at hv2
                  exact .inr hv2
          · -- installer branch
            rename_i hb
            split at h
            · rename_i deps hi
              split at h
              · exact absurd h (by simp)
              · rename_i s2 hsub
                obtain ⟨g1, g2, g3, g4, g5⟩ := ih deps _ s2 hsub
                obtain ⟨k1, k2, k3, k4, k5⟩ := ih ts _ s' h
                dsimp only at g1 g2 g3 g4 g5 k1 k2 k3 k4 k5
                have herase : s2.visiting.erase t = s.visiting := by
                  rw [g1]
                  exact List.erase_cons_head t s.visiting
                refine ⟨?_, ?_, ?_, ?_, ?_⟩
                · rw [k1, herase]
                · intro v hv
                  exact k2 v (List.mem_cons_of_mem _ (g2 v hv))
                · obtain ⟨l1, hl1⟩ := g3
                  obtain ⟨l2, hl2⟩ := k3
                  exact ⟨l1 ++ [t] ++ l2, by simp [hl2, hl1]⟩
                · intro u hu
                  rcases List.mem_cons.mp hu with rfl | hu
                  · exact k2 u (List.mem_cons_self _ _)
                  · exact k4 u hu
                · intro v hv
                  rcases k5 v hv with hv2 | hv2
                  · rcases List.mem_cons.mp hv2 with rfl | hv2
                    · exact .inr hvg
                    · rcases g5 v hv2 with hv3 | hv3
                      · exact .inl hv3
                      · exact .inr fun hc => hv3 (List.mem_cons_of_mem _ hc)
                  · rw [herase] at hv2
                    exact .inr hv2
            · exact absurd h (by simp)

theorem resolvedClosed_append (I B : Registry) (l : List String) (t : String)
    (h : ResolvedClosed I B l)
    (hdeps : ∀ deps, lookupId B t = none → lookupId I t = some deps →
      ∀ d ∈ deps, lookupId B d = none → d ∈ l) :
    ResolvedClosed I B (l ++ [t]) := by
  intro l1 i l2 heq deps hB hI d hd hdB
  rcases l2.eq_nil_or_concat with h2 | ⟨l2', a, rfl⟩
  · subst h2
    obtain ⟨rfl, h4⟩ := List.append_inj' heq rfl
    obtain rfl : t = i := by simpa using h4
    exact hdeps deps hB hI d hd hdB
  · rw [List.concat_eq_append,
      show l1 ++ i :: (l2' ++ [a]) = (l1 ++ i :: l2') ++ [a] by simp] at heq
    obtain ⟨rfl, _⟩ := List.append_inj' heq rfl
    exact h l1 i l2' rfl deps hB hI d hd hdB

/-- A successful DFS run preserves the `Good` invariant. -/
theorem visitMany_ok_good (I B : Registry) :
    ∀ (fuel : Nat) (ts : List String) (s s' : RState),
      visitMany I B fuel ts s = .ok s' → Good I B s → Good I B s' := by
  intro fuel
  induction fuel with
  | zero =>
    intro ts s s' h hg
    cases ts with
    | nil =>
      simp only [visitMany, Except.ok.injEq] at h
      subst h; exact hg
    | cons t ts =>
      simp only [visitMany] at h
      exact absurd h (by simp)
  | succ fuel ih =>
    intro ts s s' h hg
    cases ts with
    | nil =>
      simp only [visitMany, Except.ok.injEq] at h
      subst h; exact hg
    | cons t ts =>
      simp only [visitMany] at h
      split at h
      · exact ih ts s s' h hg
      · split at h
        · exact absurd h (by simp)
        · rename_i hvd hvg
          split at h
          · -- bundle branch: resolved unchanged, t added to visited
            rename_i subs hb
            split at h
            · exact absurd h (by simp)
            · rename_i s2 hsub
              have hg2 : Good I B s2 := ih subs _ s2 hsub (by
                obtain ⟨a1, a2, a3, a4⟩ := hg
                exact ⟨a1, a2, a3, a4⟩)
              refine ih ts _ s' h ?_
              obtain ⟨b1, b2, b3, b4⟩ := hg2
              refine ⟨b1, ?_, ?_, b4⟩
              · intro v hv
                exact List.mem_cons_of_mem _ (b2 v hv)
              · intro v hv hvB
                rcases List.mem_cons.mp hv with rfl | hv
                · exact absurd hb (by simp [hvB])
                · exact b3 v hv hvB
          · -- installer branch: t appended to resolved and visited
            rename_i hb
            split at h
            · rename_i deps hi
              split at h
              · exact absurd h (by simp)
              · rename_i s2 hsub
                have hg2 : Good I B s2 := ih deps _ s2 hsub (by
                  obtain ⟨a1, a2, a3, a4⟩ := hg
                  exact ⟨a1, a2, a3, a4⟩)
                obtain ⟨inv1, inv2, inv3, inv4, inv5⟩ := visitMany_ok_inv I B fuel deps _ s2 hsub
                dsimp only at inv1 inv2 inv3 inv4 inv5
                obtain ⟨b1, b2, b3, b4⟩ := hg2
                have htnotres : t ∉ s2.resolved := by
                  intro hc
                  have := b2 t hc
                  rcases inv5 t this with h1 | h1
                  · exact hvd h1
                  · exact h1 (List.mem_cons_self _ _)
                refine ih ts _ s' h ?_
                refine ⟨?_, ?_, ?_, ?_⟩
                · simpa [List.nodup_append] using ⟨b1, htnotres⟩
                · intro v hv
                  rcases List.mem_append.mp hv with hv | hv
                  · exact List.mem_cons_of_mem _ (b2 v hv)
                  · obtain rfl : v = t := by simpa using hv
                    exact List.mem_cons_self _ _
                · intro v hv hvB
                  rcases List.mem_cons.mp hv with rfl | hv
                  · exact List.mem_append.mpr (.inr (by simp))
                  · exact List.mem_append.mpr (.inl (b3 v hv hvB))
                · refine resolvedClosed_append I B _ t b4 ?_
                  intro deps' _ hI' d hd hdB
                  obtain rfl : deps' = deps := by
                    rw [hi] at hI'
                    simpa using hI'.symm
                  exact b3 d (inv4 d hd) hdB
            · exact absurd h (by simp)

/-- A successful DFS run preserves edge-closure of `visited`. -/
theorem visitMany_ok_visClosed (I B : Registry) :
    ∀ (fuel : Nat) (ts : List String) (s s' : RState),
      visitMany I B fuel ts s = .ok s' → VisClosed I B s → VisClosed I B s' := by
  intro fuel
  induction fuel with
  | zero =>
    intro ts s s' h hg
    cases ts with
    | nil =>
      simp only [visitMany, Except.ok.injEq] at h
      subst h; exact hg
    | cons t ts =>
      simp only [visitMany] at h
      exact absurd h (by simp)
  | succ fuel ih =>
    intro ts s s' h hg
    cases ts with
    | nil =>
      simp only [visitMany, Except.ok.injEq] at h
      subst h; exact hg
    | cons t ts =>
      simp only [visitMany] at h
      split at h
      · exact ih ts s s' h hg
      · split at h
        · exact absurd h (by simp)
        · rename_i hvd hvg
          split at h
          · -- bundle branch
            rename_i subs hb
            split at h
            · exact absurd h (by simp)
            · rename_i s2 hsub
              have hg2 : VisClosed I B s2 := ih subs _ s2 hsub hg
              obtain ⟨_, _, _, inv4, _⟩ := visitMany_ok_inv I B fuel subs _ s2 hsub
              refine ih ts _ s' h ?_
              intro v hv w hw
              rcases List.mem_cons.mp hv with rfl | hv
              · rcases hw with ⟨subs', hsome, hmem⟩ | ⟨hnone, _⟩
                · obtain rfl : subs' = subs := by
                    rw [hb] at hsome
                    simpa using hsome.symm
                  exact List.mem_cons_of_mem _ (inv4 w hmem)
                · exact absurd hb (by simp [hnone])
              · exact List.mem_cons_of_mem _ (hg2 v hv w hw)
          · -- installer branch
            rename_i hb
            split at h
            · rename_i deps hi
              split at h
              · exact absurd h (by simp)
              · rename_i s2 hsub
                have hg2 : VisClosed I B s2 := ih deps _ s2 hsub hg
                obtain ⟨_, _, _, inv4, _⟩ := visitMany_ok_inv I B fuel deps _ s2 hsub
                refine ih ts _ s' h ?_
                intro v hv w hw
                rcases List.mem_cons.mp hv with rfl | hv
                · rcases hw with ⟨subs', hsome, _⟩ | ⟨_, deps', hsome, hmem⟩
                  · exact absurd hsome (by simp [hb])
                  · obtain rfl : deps' = deps := by
                      rw [hi] at hsome
                      simpa using hsome.symm
                    exact List.mem_cons_of_mem _ (inv4 w hmem)
                · exact List.mem_cons_of_mem _ (hg2 v hv w hw)
            · exact absurd h (by simp)

/-! ## Resolver soundness at the `resolveTargets` level -/

/-- Every plan returned by `_resolve_targets` is duplicate-free, satisfies
the dependencies-strictly-earlier invariant, contains every requested and
every reachable non-bundle id, and its members are exactly first-completion
emissions of the DFS. -/
theorem resolveTargets_ok_sound (I B : Registry) (targets : List String)
    (plan : List String) (h : resolveTargets I B targets = .ok plan) :
    plan.Nodup ∧ ResolvedClosed I B plan ∧
    (∀ t ∈ targets, ∀ u, Reaches I B t u → lookupId B u = none → u ∈ plan) := by
  rw [resolveTargets] at h
  split at h
  · exact absurd h (by simp)
  · rename_i s hs
    obtain rfl : plan = s.resolved := by simpa using h.symm
    obtain ⟨good1, _, good3, good4⟩ :=
      visitMany_ok_good I B _ targets ⟨[], [], []⟩ s hs
        ⟨List.nodup_nil, by simp, by simp, by intro l1 i l2 heq; simp at heq⟩
    obtain ⟨_, _, _, inv4, _⟩ := visitMany_ok_inv I B _ targets ⟨[], [], []⟩ s hs
    have hvc : VisClosed I B s :=
      visitMany_ok_visClosed I B _ targets ⟨[], [], []⟩ s hs (by intro v hv; simp at hv)
    refine ⟨good1, good4, ?_⟩
    intro t ht u hreach huB
    have huvis : ∀ u, Reaches I B t u → u ∈ s.visited := by
      intro u hr
      induction hr with
      | refl => exact inv4 t ht
      | tail _ he ihr => exact hvc _ ihr _ he
    exact good3 u (huvis u hreach) huB

/-! ## Resolver totality on acyclic registries -/

theorem lookupId_mem : ∀ (m : Registry) (k : String) (v : List String),
    lookupId m k = some v → (k, v) ∈ m := by
  intro m
  induction m with
  | nil => intro k v h; simp [lookupId] at h
  | cons p rest ih =>
    intro k v h
    obtain ⟨k', v'⟩ := p
    rw [lookupId] at h
    split at h
    · rename_i heq
      obtain rfl : v' = v := by simpa using h
      subst heq
      exact List.mem_cons_self _ _
    · exact List.mem_cons_of_mem _ (ih k v h)

theorem le_foldr_max (l : List Nat) (x : Nat) (h : x ∈ l) : x ≤ l.foldr max 0 := by
  induction l with
  | nil => simp at h
  | cons a l ih =>
    rcases List.mem_cons.mp h with rfl | h
    · exact le_max_left _ _
    · exact le_trans (ih h) (le_max_right _ _)

theorem length_le_registryMaxLen (I B : Registry) (k : String) (v : List String)
    (h : (k, v) ∈ B ∨ (k, v) ∈ I) : v.length ≤ registryMaxLen I B := by
  apply le_foldr_max
  rcases h with h | h
  · exact List.mem_map.mpr ⟨(k, v), List.mem_append.mpr (.inl h), rfl⟩
  · exact List.mem_map.mpr ⟨(k, v), List.mem_append.mpr (.inr h), rfl⟩

/-- On an acyclic, closed registry the DFS never raises and never exhausts
its fuel, provided the fuel covers the worklist plus `rank` budget. -/
theorem visitMany_total (I B : Registry) (rank : String → Nat)
    (hcl : ClosedDecreasing I B rank) :
    ∀ (r : Nat) (ts : List String) (s : RState) (fuel : Nat),
      (∀ t ∈ ts, KnownId I B t ∧ rank t < r) →
      (∀ v ∈ s.visiting, r ≤ rank v) →
      ts.length + r * (registryMaxLen I B + 1) ≤ fuel →
      ∃ s', visitMany I B fuel ts s = .ok s' := by
  intro r
  induction r using Nat.strong_induction_on with
  | _ r ihr =>
    intro ts
    induction ts with
    | nil =>
      intro s fuel _ _ _
      exact ⟨s, by simp [visitMany]⟩
    | cons t ts ihts =>
      intro s fuel hts hvisit hfuel
      obtain ⟨f, rfl⟩ : ∃ f, fuel = f + 1 := by
        cases fuel with
        | zero =>
          exfalso
          simp only [List.length_cons] at hfuel
          omega
        | succ f => exact ⟨f, rfl⟩
      obtain ⟨hknown, hrank⟩ := hts t (List.mem_cons_self _ _)
      have hts' : ∀ u ∈ ts, KnownId I B u ∧ rank u < r :=
        fun u hu => hts u (List.mem_cons_of_mem _ hu)
      have hfuel' : ts.length + r * (registryMaxLen I B + 1) ≤ f := by
        simp only [List.length_cons] at hfuel
        omega
      simp only [visitMany]
      have hvg : t ∉ s.visiting := fun hc => by
        have := hvisit t hc
        omega
      by_cases hvd : t ∈ s.visited
      · rw [if_pos hvd]
        exact ihts s f hts' hvisit hfuel'
      · rw [if_neg hvd, if_neg hvg]
        have hvisit1 : ∀ v ∈ t :: s.visiting, rank t ≤ rank v := by
          intro v hv
          rcases List.mem_cons.mp hv with rfl | hv
          · exact le_refl _
          · have := hvisit v hv
            omega
        cases hB : lookupId B t with
        | some subs =>
          have hmemB := lookupId_mem B t subs hB
          have hsubs : ∀ m ∈ subs, KnownId I B m ∧ rank m < rank t :=
            fun m hm => hcl.1 (t, subs) hmemB m hm
          have hlen : subs.length ≤ registryMaxLen I B :=
            length_le_registryMaxLen I B t subs (.inl hmemB)
          have hfsub : subs.length + rank t * (registryMaxLen I B + 1) ≤ f := by
            have hmul : (rank t + 1) * (registryMaxLen I B + 1)
                ≤ r * (registryMaxLen I B + 1) :=
              Nat.mul_le_mul_right _ hrank
            rw [Nat.succ_mul] at hmul
            omega
          obtain ⟨s2, hs2⟩ := ihr (rank t) hrank subs
            { s with visiting := t :: s.visiting } f hsubs hvisit1 hfsub
          dsimp only
          rw [hs2]
          dsimp only
          obtain ⟨g1, _, _, _, _⟩ := visitMany_ok_inv I B f subs _ s2 hs2
          have herase : s2.visiting.erase t = s.visiting := by
            rw [g1]
            exact List.erase_cons_head t s.visiting
          apply ihts _ f hts' _ hfuel'
          intro v hv
          dsimp only at hv
          rw [herase] at hv
          exact hvisit v hv
        | none =>
          cases hI : lookupId I t with
          | some deps =>
            have hmemI := lookupId_mem I t deps hI
            have hdeps : ∀ m ∈ deps, KnownId I B m ∧ rank m < rank t :=
              fun m hm => hcl.2 (t, deps) hmemI m hm
            have hlen : deps.length ≤ registryMaxLen I B :=
              length_le_registryMaxLen I B t deps (.inr hmemI)
            have hfsub : deps.length + rank t * (registryMaxLen I B + 1) ≤ f := by
              have hmul : (rank t + 1) * (registryMaxLen I B + 1)
                  ≤ r * (registryMaxLen I B + 1) :=
                Nat.mul_le_mul_right _ hrank
              rw [Nat.succ_mul] at hmul
              omega
            obtain ⟨s2, hs2⟩ := ihr (rank t) hrank deps
              { s with visiting := t :: s.visiting } f hdeps hvisit1 hfsub
            dsimp only
            rw [hs2]
            dsimp only
            obtain ⟨g1, _, _, _, _⟩ := visitMany_ok_inv I B f deps _ s2 hs2
            have herase : s2.visiting.erase t = s.visiting := by
              rw [g1]
              exact List.erase_cons_head t s.visiting
            apply ihts _ f hts' _ hfuel'
            intro v hv
            dsimp only at hv
            rw [herase] at hv
            exact hvisit v hv
          | none =>
            rcases hknown with hk | hk
            · rw [hB] at hk
              simp at hk
            · rw [hI] at hk
              simp at hk

/-- On an acyclic, closed registry `_resolve_targets` returns a plan. -/
theorem resolveTargets_total (I B : Registry) (targets : List String) (rank : String → Nat)
    (hcl : ClosedDecreasing I B rank)
    (htargets : ∀ t ∈ targets, KnownId I B t ∧ rank t < B.length + I.length) :
    ∃ plan, resolveTargets I B targets = .ok plan := by
  obtain ⟨s', hs'⟩ := visitMany_total I B rank hcl (B.length + I.length) targets ⟨[], [], []⟩
    (resolveFuel I B targets) htargets (by simp) (by simp [resolveFuel])
  rw [resolveTargets, hs']
  exact ⟨s'.resolved, rfl⟩

/-! ## Executor lemmas -/

theorem lookupEntry_map_self : ∀ (st : StateMap) (k : String) (e : Entry),
    st.any (fun p => p.1 == k) = true →
    lookupEntry (st.map (fun p => if p.1 == k then (k, e) else p)) k = some e := by
  intro st
  induction st with
  | nil => intro k e hany; simp at hany
  | cons p rest ih =>
    intro k e hany
    simp only [List.map_cons]
    by_cases hk : p.1 == k
    · rw [if_pos hk]
      simp [lookupEntry]
    · rw [if_neg hk]
      rw [lookupEntry]
      have hk' : ¬ p.1 = k := by simpa using hk
      rw [if_neg hk']
      apply ih
      simpa [List.any_cons, hk] using hany

theorem lookupEntry_append_self : ∀ (st : StateMap) (k : String) (e : Entry),
    ¬ st.any (fun p => p.1 == k) = true →
    lookupEntry (st ++ [(k, e)]) k = some e := by
  intro st
  induction st with
  | nil => intro k e _; simp [lookupEntry]
  | cons p rest ih =>
    intro k e hany
    rw [List.cons_append, lookupEntry]
    have hp : ¬ p.1 = k := by
      intro hc
      exact hany (by simp [List.any_cons, hc])
    rw [if_neg hp]
    apply ih
    intro hc
    apply hany
    simp only [List.any_cons, Bool.or_eq_true]
    exact .inr hc

theorem lookupEntry_map_other : ∀ (st : StateMap) (k k' : String) (e : Entry), k' ≠ k →
    lookupEntry (st.map (fun p => if p.1 == k then (k, e) else p)) k' = lookupEntry st k' := by
  intro st
  induction st with
  | nil => intro k k' e _; simp [lookupEntry]
  | cons p rest ih =>
    intro k k' e hne
    simp only [List.map_cons]
    by_cases hk : p.1 == k
    · rw [if_pos hk]
      rw [lookupEntry, lookupEntry]
      rw [if_neg (fun hc => hne hc.symm)]
      have hp : ¬ p.1 = k' := by
        have hpk : p.1 = k := by simpa using hk
        rw [hpk]
        exact fun hc => hne hc.symm
      rw [if_neg hp]
      exact ih k k' e hne
    · rw [if_neg hk]
      rw [lookupEntry, lookupEntry]
      by_cases hp : p.1 = k'
      · rw [if_pos hp, if_pos hp]
      · rw [if_neg hp, if_neg hp]
        exact ih k k' e hne

theorem lookupEntry_append_other : ∀ (st : StateMap) (k k' : String) (e : Entry), k' ≠ k →
    lookupEntry (st ++ [(k, e)]) k' = lookupEntry st k' := by
  intro st
  induction st with
  | nil =>
    intro k k' e hne
    simp only [List.nil_append, lookupEntry]
    rw [if_neg (fun hc => hne hc.symm)]
  | cons p rest ih =>
    intro k k' e hne
    rw [List.cons_append, lookupEntry, lookupEntry]
    by_cases hp : p.1 = k'
    · rw [if_pos hp, if_pos hp]
    · rw [if_neg hp, if_neg hp]
      exact ih k k' e hne

theorem lookupEntry_stateUpdate_self (st : StateMap) (k : String) (now : Nat)
    (res : String) (err : Option String) :
    lookupEntry (stateUpdate st k now res err) k = some ⟨now, res, err⟩ := by
  rw [stateUpdate]
  split
  · rename_i hany
    exact lookupEntry_map_self st k ⟨now, res, err⟩ hany
  · rename_i hany
    exact lookupEntry_append_self st k ⟨now, res, err⟩ hany

theorem lookupEntry_stateUpdate_other (st : StateMap) (k k' : String) (now : Nat)
    (res : String) (err : Option String) (hne : k' ≠ k) :
    lookupEntry (stateUpdate st k now res err) k' = lookupEntry st k' := by
  rw [stateUpdate]
  split
  · exact lookupEntry_map_other st k k' ⟨now, res, err⟩ hne
  · exact lookupEntry_append_other st k k' ⟨now, res, err⟩ hne

/-- The executor loop does not touch the state row of an id outside its
plan. -/
theorem runPlanLoop_untouched (bhv : String → TB) (already : String) (ctx : Ctx)
    (now : Nat) (disk : Artifact) :
    ∀ (plan : List String) (st : StateMap) (k : String), k ∉ plan →
      lookupEntry (runPlanLoop bhv already ctx now disk plan st).state k = lookupEntry st k := by
  intro plan
  induction plan with
  | nil =>
    intro st k _
    rw [runPlanLoop]
    split <;> rfl
  | cons iid rest ih =>
    intro st k hk
    have hki : k ≠ iid := fun hc => hk (hc ▸ List.mem_cons_self _ _)
    have hkr : k ∉ rest := fun hc => hk (List.mem_cons_of_mem _ hc)
    rw [runPlanLoop]
    split
    · split <;>
        simpa using lookupEntry_stateUpdate_other st iid k now "failed" _ hki
    · rw [show (⟨(runPlanLoop bhv already ctx now disk rest
          (stateUpdate st iid now already none)).code, _, _, _⟩ : RunRes).state =
          (runPlanLoop bhv already ctx now disk rest (stateUpdate st iid now already none)).state
          from rfl]
      rw [ih _ k hkr]
      exact lookupEntry_stateUpdate_other st iid k now already none hki
    · split
      · split <;>
          simpa using lookupEntry_stateUpdate_other st iid k now "failed" _ hki
      · split
        · split <;>
            simpa using lookupEntry_stateUpdate_other st iid k now "failed" _ hki
        · rw [show (⟨(runPlanLoop bhv already ctx now disk rest
              (stateUpdate st iid now "success" none)).code, _, _, _⟩ : RunRes).state =
              (runPlanLoop bhv already ctx now disk rest
                (stateUpdate st iid now "success" none)).state from rfl]
          rw [ih _ k hkr]
          exact lookupEntry_stateUpdate_other st iid k now "success" none hki

/-- The executor loop never prompts, and the only events it emits for an id
are for ids of its plan. -/
theorem runPlanLoop_events (bhv : String → TB) (already : String) (ctx : Ctx)
    (now : Nat) (disk : Artifact) :
    ∀ (plan : List String) (st : StateMap),
      Ev.prompt ∉ (runPlanLoop bhv already ctx now disk plan st).events ∧
      (∀ k, k ∉ plan →
        Ev.check k ∉ (runPlanLoop bhv already ctx now disk plan st).events ∧
        Ev.act k ∉ (runPlanLoop bhv already ctx now disk plan st).events ∧
        Ev.verify k ∉ (runPlanLoop bhv already ctx now disk plan st).events) := by
  intro plan
  induction plan with
  | nil =>
    intro st
    rw [runPlanLoop]
    constructor
    · split <;> simp
    · intro k _
      split <;> simp
  | cons iid rest ih =>
    intro st
    rw [runPlanLoop]
    constructor
    · split
      · split <;> simp
      · simpa using (ih (stateUpdate st iid now already none)).1
      · split
        · split <;> simp
        · split
          · split <;> simp
          · simpa using (ih (stateUpdate st iid now "success" none)).1
    · intro k hk
      have hki : k ≠ iid := fun hc => hk (hc ▸ List.mem_cons_self _ _)
      have hkr : k ∉ rest := fun hc => hk (List.mem_cons_of_mem _ hc)
      split
      · split <;> simp [hki]
      · have := (ih (stateUpdate st iid now already none)).2 k hkr
        simpa [hki] using this
      · split
        · split <;> simp [hki]
        · split
          · split <;> simp [hki]
          · have := (ih (stateUpdate st iid now "success" none)).2 k hkr
            simpa [hki] using this

/-- Under dry-run the loop leaves the artifact untouched and never saves. -/
theorem runPlanLoop_dry (bhv : String → TB) (already : String) (ctx : Ctx)
    (now : Nat) (disk : Artifact) (hdry : ctx.dry_run = true) :
    ∀ (plan : List String) (st : StateMap),
      (runPlanLoop bhv already ctx now disk plan st).disk = disk ∧
      Ev.save ∉ (runPlanLoop bhv already ctx now disk plan st).events := by
  intro plan
  induction plan with
  | nil =>
    intro st
    rw [runPlanLoop, if_pos hdry]
    exact ⟨rfl, by simp⟩
  | cons iid rest ih =>
    intro st
    rw [runPlanLoop]
    split
    · rw [if_pos hdry]
      exact ⟨rfl, by simp⟩
    · simpa using ih (stateUpdate st iid now already none)
    · split
      · rw [if_pos hdry]
        exact ⟨rfl, by simp⟩
      · split
        · rw [if_pos hdry]
          exact ⟨rfl, by simp⟩
        · simpa using ih (stateUpdate st iid now "success" none)

/-! ## Claims -/

/-- C1: For every requested sequence of ids known to the registry whose
dependency/bundle graph is acyclic (witnessed by a rank function bounded by
the registry size), `_resolve_targets` returns a plan in which every
target's declared non-bundle dependencies appear strictly earlier than the
target itself and each target id appears exactly once. -/
theorem c1_resolver_plan_sound (I B : Registry) (targets : List String) (rank : String → Nat)
    (hB : ∀ p ∈ B, ∀ m ∈ p.2, KnownId I B m ∧ rank m < rank p.1)
    (hI : ∀ p ∈ I, ∀ d ∈ p.2, KnownId I B d ∧ rank d < rank p.1)
    (htargets : ∀ t ∈ targets, KnownId I B t ∧ rank t < B.length + I.length) :
    ∃ plan, resolveTargets I B targets = .ok plan ∧ plan.Nodup ∧ ResolvedClosed I B plan := by
  obtain ⟨plan, hp⟩ := resolveTargets_total I B targets rank ⟨hB, hI⟩ htargets
  obtain ⟨h1, h2, _⟩ := resolveTargets_ok_sound I B targets plan hp
  exact ⟨plan, hp, h1, h2⟩

/-- Witness for C1, at the spec's own examples: bundle `A = [x, y]` with
`y` depending on `x` resolves to `[x, y]`, and a dependency-free target
resolves to `[target_id]`. -/
theorem c1_witness :
    (∃ plan, resolveTargets [("x", []), ("y", ["x"])] [("A", ["x", "y"])] ["A"] = .ok plan ∧
      plan.Nodup ∧ ResolvedClosed [("x", []), ("y", ["x"])] [("A", ["x", "y"])] plan) ∧
    resolveTargets [("x", []), ("y", ["x"])] [("A", ["x", "y"])] ["A"] = .ok ["x", "y"] ∧
    resolveTargets [("t", [])] [] ["t"] = .ok ["t"] :=
  ⟨c1_resolver_plan_sound [("x", []), ("y", ["x"])] [("A", ["x", "y"])] ["A"]
      (fun t => if t = "A" then 2 else if t = "y" then 1 else 0)
      (by decide) (by decide) (by decide),
    by decide, by decide⟩

/-- C2: resolution raises the cycle error only for ids currently being
expanded: an id already completed is skipped without error (second
conjunct), and a genuine dependency cycle `x ↔ y` makes every resolution
whose requested ids reach the cycle fail — no plan is ever returned (first
conjunct). -/
theorem c2_cycle_detection :
    (∀ (I B : Registry) (x y : String) (dx dy targets plan : List String) (entry : String),
      lookupId B x = none → lookupId I x = some dx → y ∈ dx →
      lookupId B y = none → lookupId I y = some dy → x ∈ dy →
      entry ∈ targets → Reaches I B entry x →
      resolveTargets I B targets ≠ .ok plan) ∧
    (∀ (I B : Registry) (fuel : Nat) (t : String) (ts : List String) (s : RState),
      t ∈ s.visited →
      visitMany I B (fuel + 1) (t :: ts) s = visitMany I B fuel ts s) := by
  constructor
  · intro I B x y dx dy targets plan entry hxB hxI hy hyB hyI hx hentry hreach hok
    obtain ⟨hnodup, hclosed, hmem⟩ := resolveTargets_ok_sound I B targets plan hok
    have hxplan : x ∈ plan := hmem entry hentry x hreach hxB
    obtain ⟨l1, l2, rfl⟩ := List.append_of_mem hxplan
    have hyl1 : y ∈ l1 := hclosed l1 x l2 rfl dx hxB hxI y hy hyB
    obtain ⟨m1, m2, rfl⟩ := List.append_of_mem hyl1
    have hxm1 : x ∈ m1 :=
      hclosed m1 y (m2 ++ x :: l2) (by simp) dy hyB hyI x hx hxB
    have hdisj := (List.nodup_append.mp hnodup).2.2
    exact hdisj (List.mem_append.mpr (.inl hxm1)) (List.mem_cons_self _ _)
  · intro I B fuel t ts s hvd
    simp only [visitMany]
    rw [if_pos hvd]

/-- Witness for C2: the two-target cycle `x → y → x` fails with
`CycleDetected` from either entry point, and a worklist id already in
`visited` is skipped. -/
theorem c2_witness :
    resolveTargets [("x", ["y"]), ("y", ["x"])] [] ["x"] ≠ .ok ["x", "y"] ∧
    resolveTargets [("x", ["y"]), ("y", ["x"])] [] ["x"] = .error (.cycle "x") ∧
    resolveTargets [("x", ["y"]), ("y", ["x"])] [] ["y"] = .error (.cycle "y") ∧
    visitMany [("x", ["y"]), ("y", ["x"])] [] (4 + 1) ["x"] ⟨["x"], [], ["x"]⟩ =
      visitMany [("x", ["y"]), ("y", ["x"])] [] 4 [] ⟨["x"], [], ["x"]⟩ :=
  ⟨c2_cycle_detection.1 [("x", ["y"]), ("y", ["x"])] [] "x" "y" ["y"] ["x"] ["x"] ["x", "y"] "x"
      (by decide) (by decide) (by decide) (by decide) (by decide) (by decide) (by decide)
      Relation.ReflTransGen.refl,
    by decide, by decide,
    c2_cycle_detection.2 [("x", ["y"]), ("y", ["x"])] [] 4 "x" [] ⟨["x"], [], ["x"]⟩ (by decide)⟩

/-- C3: a resolution error — in particular an unknown target id — makes
`install_target` raise before any check/act/verify is called and with the
state artifact untouched (state is neither loaded nor saved). -/
theorem c3_unknown_target_no_state :
    (∀ (installers bundles : Registry) (bhv : String → TB) (target : String)
        (ctx : Ctx) (resp : String) (now : Nat) (disk : Artifact) (e : RErr),
      resolveTargets installers bundles [target] = .error e →
      installTarget installers bundles bhv target ctx resp now disk =
        ⟨.error (renderRErr "install" e), disk, []⟩) ∧
    (∀ (installers bundles : Registry) (t : String),
      lookupId bundles t = none → lookupId installers t = none →
      resolveTargets installers bundles [t] = .error (.unknown t)) := by
  constructor
  · intro I Bs bhv target ctx resp now disk e he
    rw [installTarget, he]
  · intro I Bs t hB hI
    rw [resolveTargets]
    obtain ⟨f, hf⟩ : ∃ f, resolveFuel I Bs [t] = f + 1 := by
      rw [resolveFuel]
      refine ⟨(Bs.length + I.length) * (registryMaxLen I Bs + 1), ?_⟩
      simp only [List.length_cons, List.length_nil]
      omega
    rw [hf]
    simp [visitMany, hB, hI]

/-- Witness for C3: requesting `zzz` against a registry that only knows `t`
raises `Unknown install target: zzz` and leaves the artifact absent with no
events. -/
theorem c3_witness :
    installTarget regT [] bhvSatisfied "zzz" ⟨false, false, true⟩ "" 0 .absent =
      ⟨.error "Unknown install target: zzz", .absent, []⟩ ∧
    resolveTargets regT [] ["zzz"] = .error (.unknown "zzz") := by
  have hr := c3_unknown_target_no_state.2 regT [] "zzz" (by decide) (by decide)
  refine ⟨?_, hr⟩
  rw [c3_unknown_target_no_state.1 regT [] bhvSatisfied "zzz" ⟨false, false, true⟩ "" 0
      .absent (.unknown "zzz") hr]
  decide

/-- C4: fail-fast.  In a non-dry run of plan `[a, b, c]` where `a`'s
lifecycle succeeds (or `a` is already satisfied) and `b`'s act — or,
treated identically, `b`'s verify — raises, the loop records `a` as
`already_installed`/`success`, records `b` as `failed` with the captured
message, persists exactly that state, returns 1, and never attempts `c`:
`c`'s state row is untouched and no event mentions `c`. -/
theorem c4_fail_fast (bhv : String → TB) (ctx : Ctx) (now : Nat) (disk : Artifact)
    (st : StateMap) (a b c : String) (e : String)
    (hdry : ctx.dry_run = false)
    (ha : (bhv a).check = .ok true ∨
      ((bhv a).check = .ok false ∧ (bhv a).act = .ok () ∧ (bhv a).verify = .ok ()))
    (hbc : (bhv b).check = .ok false)
    (hb : (bhv b).act = .error e ∨ ((bhv b).act = .ok () ∧ (bhv b).verify = .error e))
    (hab : a ≠ b) (hac : a ≠ c) (hbc2 : b ≠ c) :
    (installRunLoop bhv ctx now disk [a, b, c] st).code = 1 ∧
    (lookupEntry (installRunLoop bhv ctx now disk [a, b, c] st).state a =
        some ⟨now, "already_installed", none⟩ ∨
      lookupEntry (installRunLoop bhv ctx now disk [a, b, c] st).state a =
        some ⟨now, "success", none⟩) ∧
    lookupEntry (installRunLoop bhv ctx now disk [a, b, c] st).state b =
      some ⟨now, "failed", some e⟩ ∧
    lookupEntry (installRunLoop bhv ctx now disk [a, b, c] st).state c = lookupEntry st c ∧
    (installRunLoop bhv ctx now disk [a, b, c] st).disk =
      saveState (installRunLoop bhv ctx now disk [a, b, c] st).state ∧
    Ev.check c ∉ (installRunLoop bhv ctx now disk [a, b, c] st).events ∧
    Ev.act c ∉ (installRunLoop bhv ctx now disk [a, b, c] st).events := by
  have hca : c ≠ a := Ne.symm hac
  have hcb : c ≠ b := Ne.symm hbc2
  have hba : b ≠ a := Ne.symm hab
  rcases ha with ha | ⟨ha1, ha2, ha3⟩
  · rcases hb with hb | ⟨hb1, hb2⟩
    · refine ⟨?_, .inl ?_, ?_, ?_, ?_, ?_, ?_⟩ <;>
        simp only [installRunLoop, runPlanLoop, ha, hbc, hb] <;>
        simp [lookupEntry_stateUpdate_self, lookupEntry_stateUpdate_other,
          hab, hba, hca, hcb, hdry, saveState]
    · refine ⟨?_, .inl ?_, ?_, ?_, ?_, ?_, ?_⟩ <;>
        simp only [installRunLoop, runPlanLoop, ha, hbc, hb1, hb2] <;>
        simp [lookupEntry_stateUpdate_self, lookupEntry_stateUpdate_other,
          hab, hba, hca, hcb, hdry, saveState]
  · rcases hb with hb | ⟨hb1, hb2⟩
    · refine ⟨?_, .inr ?_, ?_, ?_, ?_, ?_, ?_⟩ <;>
        simp only [installRunLoop, runPlanLoop, ha1, ha2, ha3, hbc, hb] <;>
        simp [lookupEntry_stateUpdate_self, lookupEntry_stateUpdate_other,
          hab, hba, hca, hcb, hdry, saveState]
    · refine ⟨?_, .inr ?_, ?_, ?_, ?_, ?_, ?_⟩ <;>
        simp only [installRunLoop, runPlanLoop, ha1, ha2, ha3, hbc, hb1, hb2] <;>
        simp [lookupEntry_stateUpdate_self, lookupEntry_stateUpdate_other,
          hab, hba, hca, hcb, hdry, saveState]

/-- Witness for C4: concrete three-target plan where `a` is already
satisfied and `b`'s act raises `"apt failed"`. -/
theorem c4_witness :
    (installRunLoop bhvC4 ⟨false, false, true⟩ 3 .absent ["a", "b", "c"] []).code = 1 ∧
    (lookupEntry (installRunLoop bhvC4 ⟨false, false, true⟩ 3 .absent
        ["a", "b", "c"] []).state "a" = some ⟨3, "already_installed", none⟩ ∨
      lookupEntry (installRunLoop bhvC4 ⟨false, false, true⟩ 3 .absent
        ["a", "b", "c"] []).state "a" = some ⟨3, "success", none⟩) ∧
    lookupEntry (installRunLoop bhvC4 ⟨false, false, true⟩ 3 .absent
      ["a", "b", "c"] []).state "b" = some ⟨3, "failed", some "apt failed"⟩ ∧
    lookupEntry (installRunLoop bhvC4 ⟨false, false, true⟩ 3 .absent
      ["a", "b", "c"] []).state "c" = lookupEntry [] "c" ∧
    (installRunLoop bhvC4 ⟨false, false, true⟩ 3 .absent ["a", "b", "c"] []).disk =
      saveState (installRunLoop bhvC4 ⟨false, false, true⟩ 3 .absent
        ["a", "b", "c"] []).state ∧
    Ev.check "c" ∉ (installRunLoop bhvC4 ⟨false, false, true⟩ 3 .absent
      ["a", "b", "c"] []).events ∧
    Ev.act "c" ∉ (installRunLoop bhvC4 ⟨false, false, true⟩ 3 .absent
      ["a", "b", "c"] []).events :=
  c4_fail_fast bhvC4 ⟨false, false, true⟩ 3 .absent [] "a" "b" "c" "apt failed"
    rfl (.inl (by decide)) (by decide) (.inl (by decide))
    (by decide) (by decide) (by decide)

/-- C5 counterexample: in the install domain a satisfied target's row is
written with `last_result = "already_installed"`, which is not the spec's
`"already_satisfied"`. -/
theorem c5_counterexample :
    (installRunLoop bhvSatisfied ⟨false, false, true⟩ 7 .absent ["t"] []).state =
      [("t", ⟨7, "already_installed", none⟩)] ∧
    "already_installed" ≠ "already_satisfied" := ⟨by decide, by decide⟩

/-- C5 (amended): a target whose check returns true is recorded with
`last_error = null`, `last_run = now` and a per-domain `last_result` label:
`already_installed` in install, `already_present` in pull,
`already_created` in create. -/
theorem c5_already_labels (bhv : String → TB) (ctx : Ctx) (now : Nat) (disk : Artifact)
    (st : StateMap) (iid : String) (rest : List String)
    (hc : (bhv iid).check = .ok true) (hrest : iid ∉ rest) :
    lookupEntry (installRunLoop bhv ctx now disk (iid :: rest) st).state iid =
      some ⟨now, "already_installed", none⟩ ∧
    lookupEntry (pullRunLoop bhv ctx now disk (iid :: rest) st).state iid =
      some ⟨now, "already_present", none⟩ ∧
    lookupEntry (createRunLoop bhv ctx now disk (iid :: rest) st).state iid =
      some ⟨now, "already_created", none⟩ := by
  refine ⟨?_, ?_, ?_⟩ <;>
    simp only [installRunLoop, pullRunLoop, createRunLoop, runPlanLoop, hc] <;>
    rw [runPlanLoop_untouched _ _ _ _ _ rest _ iid hrest] <;>
    exact lookupEntry_stateUpdate_self st iid now _ none

/-- Witness for C5 (amended): the concrete satisfied target `t` at time 7. -/
theorem c5_witness :
    lookupEntry (installRunLoop bhvSatisfied ⟨false, false, true⟩ 7 .absent ["t"] []).state "t" =
      some ⟨7, "already_installed", none⟩ ∧
    lookupEntry (pullRunLoop bhvSatisfied ⟨false, false, true⟩ 7 .absent ["t"] []).state "t" =
      some ⟨7, "already_present", none⟩ ∧
    lookupEntry (createRunLoop bhvSatisfied ⟨false, false, true⟩ 7 .absent ["t"] []).state "t" =
      some ⟨7, "already_created", none⟩ :=
  c5_already_labels bhvSatisfied ⟨false, false, true⟩ 7 .absent [] "t" [] rfl (by decide)

/-- C6 counterexample: a dry run is not always a success outcome that marks
nothing failed — with a target whose check is false, `verify` (which is not
dry-run-gated in the source) still runs and its failure makes the dry run
record an in-memory `failed` row and return 1. -/
theorem c6_counterexample :
    installTarget regT [] bhvVerifyFails "t" ⟨true, false, false⟩ "" 0 .absent =
      ⟨.ok 1, .absent, [.check "t", .act "t", .verify "t"]⟩ ∧
    (installTarget regT [] bhvVerifyFails "t" ⟨true, false, false⟩ "" 0 .absent).outcome ≠
      .ok 0 ∧
    (installRunLoop bhvVerifyFails ⟨true, false, false⟩ 0 .absent ["t"] []).state =
      [("t", ⟨0, "failed", some "verify failed"⟩)] := ⟨by decide, by decide, by decide⟩

/-- C6 (amended): under dry-run nothing is ever saved, the artifact comes
back untouched, and the prompt is bypassed — so the persisted state is
exactly what a subsequent real run would load; but `check`, `act` and
`verify` are still invoked (dry-run handling lives inside the actions and
`verify` is not gated), so a verify failure still records an in-memory
`failed` row, halts the plan and returns 1. -/
theorem c6_dry_run_no_persist :
    (∀ (bhv : String → TB) (already : String) (ctx : Ctx) (now : Nat) (disk : Artifact)
        (plan : List String) (st : StateMap), ctx.dry_run = true →
      (runPlanLoop bhv already ctx now disk plan st).disk = disk ∧
      Ev.save ∉ (runPlanLoop bhv already ctx now disk plan st).events) ∧
    (∀ (installers bundles : Registry) (bhv : String → TB) (target resp : String)
        (ctx : Ctx) (now : Nat) (disk : Artifact), ctx.dry_run = true →
      (installTarget installers bundles bhv target ctx resp now disk).disk = disk ∧
      Ev.save ∉ (installTarget installers bundles bhv target ctx resp now disk).events ∧
      Ev.prompt ∉ (installTarget installers bundles bhv target ctx resp now disk).events) ∧
    (∀ (bhv : String → TB) (already : String) (ctx : Ctx) (now : Nat) (disk : Artifact)
        (iid : String) (rest : List String) (st : StateMap) (e : String), ctx.dry_run = true →
      (bhv iid).check = .ok false → (bhv iid).act = .ok () → (bhv iid).verify = .error e →
      (runPlanLoop bhv already ctx now disk (iid :: rest) st).code = 1 ∧
      (runPlanLoop bhv already ctx now disk (iid :: rest) st).disk = disk ∧
      lookupEntry (runPlanLoop bhv already ctx now disk (iid :: rest) st).state iid =
        some ⟨now, "failed", some e⟩) := by
  refine ⟨?_, ?_, ?_⟩
  · intro bhv already ctx now disk plan st hdry
    exact runPlanLoop_dry bhv already ctx now disk hdry plan st
  · intro installers bundles bhv target resp ctx now disk hdry
    rw [installTarget]
    cases hres : resolveTargets installers bundles [target] with
    | error e => exact ⟨rfl, by simp, by simp⟩
    | ok plan =>
      simp only [hdry, Bool.not_true, Bool.and_false, Bool.false_and, if_false]
      exact ⟨(runPlanLoop_dry bhv _ ctx now disk hdry plan _).1,
        (runPlanLoop_dry bhv _ ctx now disk hdry plan _).2,
        (runPlanLoop_events bhv _ ctx now disk plan _).1⟩
  · intro bhv already ctx now disk iid rest st e hdry hc hact hver
    simp only [runPlanLoop, hc, hact, hver, hdry, if_true]
    exact ⟨trivial, trivial, lookupEntry_stateUpdate_self st iid now "failed" (some e)⟩

/-- Witness for C6 (amended): a concrete dry run over a corrupt artifact
leaves it corrupt, never saves or prompts, and still fails on the
unverifiable target. -/
theorem c6_witness :
    ((installTarget regT [] bhvVerifyFails "t" ⟨true, false, false⟩ "" 0 .corrupt).disk =
      .corrupt ∧
    Ev.save ∉ (installTarget regT [] bhvVerifyFails "t" ⟨true, false, false⟩ "" 0
      .corrupt).events ∧
    Ev.prompt ∉ (installTarget regT [] bhvVerifyFails "t" ⟨true, false, false⟩ "" 0
      .corrupt).events) ∧
    (runPlanLoop bhvVerifyFails "already_installed" ⟨true, false, false⟩ 0 .corrupt
      ["t"] []).code = 1 ∧
    (runPlanLoop bhvVerifyFails "already_installed" ⟨true, false, false⟩ 0 .corrupt
      ["t"] []).disk = .corrupt ∧
    lookupEntry (runPlanLoop bhvVerifyFails "already_installed" ⟨true, false, false⟩ 0 .corrupt
      ["t"] []).state "t" = some ⟨0, "failed", some "verify failed"⟩ :=
  ⟨c6_dry_run_no_persist.2.1 regT [] bhvVerifyFails "t" "" ⟨true, false, false⟩ 0 .corrupt rfl,
    c6_dry_run_no_persist.2.2 bhvVerifyFails "already_installed" ⟨true, false, false⟩ 0 .corrupt
      "t" [] [] "verify failed" rfl rfl rfl rfl⟩

/-- C7 counterexample: with every planned target already satisfied (no
check has returned false, so no mutating action is pending), the prompt is
still issued — before any check at all — and declining aborts with exit 1:
the run below prompts yet its event list contains no check. -/
theorem c7_counterexample :
    installTarget regT [] bhvSatisfied "t" ⟨false, false, false⟩ "n" 0 .absent =
      ⟨.ok 1, .absent, [.prompt]⟩ ∧
    Ev.prompt ∈ (installTarget regT [] bhvSatisfied "t" ⟨false, false, false⟩ "n" 0
      .absent).events ∧
    Ev.check "t" ∉ (installTarget regT [] bhvSatisfied "t" ⟨false, false, false⟩ "n" 0
      .absent).events := ⟨by decide, by decide, by decide⟩

/-- C7 (amended): when neither auto-confirm nor dry-run is set, exactly one
prompt is issued per invocation, right after resolution and before any
check runs — even when every target is already satisfied; declining aborts
the invocation with exit 1 and no state mutation; the prompt is bypassed
whenever auto-confirm or dry-run is set. -/
theorem c7_confirmation_gate (installers bundles : Registry) (bhv : String → TB)
    (target resp : String) (ctx : Ctx) (now : Nat) (disk : Artifact) (plan : List String)
    (hok : resolveTargets installers bundles [target] = .ok plan) :
    (ctx.yes = false → ctx.dry_run = false → confirmAccepted resp = false →
      installTarget installers bundles bhv target ctx resp now disk =
        ⟨.ok 1, disk, [.prompt]⟩) ∧
    (ctx.yes = false → ctx.dry_run = false → confirmAccepted resp = true →
      (installTarget installers bundles bhv target ctx resp now disk).events =
        .prompt :: (installRunLoop bhv ctx now disk plan (loadState disk)).events ∧
      (installTarget installers bundles bhv target ctx resp now disk).events.count
        .prompt = 1) ∧
    ((ctx.yes = true ∨ ctx.dry_run = true) →
      Ev.prompt ∉ (installTarget installers bundles bhv target ctx resp now disk).events) := by
  refine ⟨?_, ?_, ?_⟩
  · intro hyes hdry hresp
    rw [installTarget, hok]
    simp [hyes, hdry, hresp]
  · intro hyes hdry hresp
    rw [installTarget, hok]
    simp only [hyes, hdry, hresp, Bool.not_false, Bool.and_self, if_true]
    refine ⟨trivial, ?_⟩
    have hnp : Ev.prompt ∉ (installRunLoop bhv ctx now disk plan (loadState disk)).events :=
      (runPlanLoop_events bhv "already_installed" ctx now disk plan (loadState disk)).1
    show (Ev.prompt ::
      (installRunLoop bhv ctx now disk plan (loadState disk)).events).count Ev.prompt = 1
    rw [List.count_cons_self, List.count_eq_zero.mpr hnp]
  · intro hby
    rw [installTarget, hok]
    rcases hby with hyes | hdry
    · simp only [hyes, Bool.not_true, Bool.false_and, if_false]
      exact (runPlanLoop_events bhv "already_installed" ctx now disk plan (loadState disk)).1
    · simp only [hdry, Bool.not_true, Bool.and_false, if_false]
      exact (runPlanLoop_events bhv "already_installed" ctx now disk plan (loadState disk)).1

/-- Witness for C7 (amended): declining aborts the satisfied-target run with
code 1; accepting prompts exactly once; auto-confirm never prompts. -/
theorem c7_witness :
    installTarget regT [] bhvSatisfied "t" ⟨false, false, false⟩ " N " 0 .absent =
      ⟨.ok 1, .absent, [.prompt]⟩ ∧
    (installTarget regT [] bhvSatisfied "t" ⟨false, false, false⟩ " Y " 0
      .absent).events.count .prompt = 1 ∧
    Ev.prompt ∉ (installTarget regT [] bhvSatisfied "t" ⟨false, false, true⟩ "" 0
      .absent).events :=
  ⟨(c7_confirmation_gate regT [] bhvSatisfied "t" " N " ⟨false, false, false⟩ 0 .absent
      ["t"] (by decide)).1 rfl rfl (by decide),
    ((c7_confirmation_gate regT [] bhvSatisfied "t" " Y " ⟨false, false, false⟩ 0 .absent
      ["t"] (by decide)).2.1 rfl rfl (by decide)).2,
    (c7_confirmation_gate regT [] bhvSatisfied "t" "" ⟨false, false, true⟩ 0 .absent
      ["t"] (by decide)).2.2 (.inl rfl)⟩

/-! ## Doctor lemmas -/

theorem doctorRowEvs_shape (pid : String) (b : TB) :
    ∀ ev ∈ doctorRowEvs pid b, ev = .check pid ∨ ev = .verify pid := by
  intro ev hev
  rw [doctorRowEvs] at hev
  split at hev
  · simpa using hev
  · exact .inl (by simpa using hev)

/-- The install doctor sweep emits only check/verify events. -/
theorem installDoctorLoop_events (installers : Registry) (bhv : String → TB) :
    ∀ (ts : List String) (rep : List InstallRow) (evs : List Ev),
      installDoctorLoop installers bhv ts = .ok (rep, evs) →
      ∀ ev ∈ evs, (∃ k, ev = .check k) ∨ (∃ k, ev = .verify k) := by
  intro ts
  induction ts with
  | nil =>
    intro rep evs h ev hev
    rw [installDoctorLoop] at h
    obtain ⟨-, rfl⟩ : rep = [] ∧ evs = [] := by simpa using h.symm
    simp at hev
  | cons t rest ih =>
    intro rep evs h ev hev
    rw [installDoctorLoop] at h
    split at h
    · exact ih rep evs h ev hev
    · split at h
      · exact absurd h (by simp)
      · -- check returned false
        split at h
        · exact absurd h (by simp)
        · rename_i r' e' hrest
          obtain ⟨-, rfl⟩ : rep = _ ∧ evs = Ev.check t :: e' := by simpa using h.symm
          rcases List.mem_cons.mp hev with rfl | hev
          · exact .inl ⟨t, rfl⟩
          · exact ih r' e' hrest ev hev
      · -- check returned true
        split at h
        · split at h
          · exact absurd h (by simp)
          · rename_i r' e' hrest
            obtain ⟨-, rfl⟩ : rep = _ ∧ evs = Ev.check t :: Ev.verify t :: e' := by
              simpa using h.symm
            rcases List.mem_cons.mp hev with rfl | hev
            · exact .inl ⟨t, rfl⟩
            · rcases List.mem_cons.mp hev with rfl | hev
              · exact .inr ⟨t, rfl⟩
              · exact ih r' e' hrest ev hev
        · split at h
          · exact absurd h (by simp)
          · rename_i r' e' hrest
            obtain ⟨-, rfl⟩ : rep = _ ∧ evs = Ev.check t :: Ev.verify t :: e' := by
              simpa using h.symm
            rcases List.mem_cons.mp hev with rfl | hev
            · exact .inl ⟨t, rfl⟩
            · rcases List.mem_cons.mp hev with rfl | hev
              · exact .inr ⟨t, rfl⟩
              · exact ih r' e' hrest ev hev

/-- The pull doctor sweep emits only check/verify events. -/
theorem pullDoctorLoop_events (olist : Except String (List String)) :
    ∀ (pullers : List (String × TB)) (ev : Ev), ev ∈ (pullDoctorLoop olist pullers).2 →
      (∃ k, ev = .check k) ∨ (∃ k, ev = .verify k) := by
  intro pullers
  induction pullers with
  | nil => intro ev hev; simp [pullDoctorLoop] at hev
  | cons p rest ih =>
    intro ev hev
    obtain ⟨pid, b⟩ := p
    rw [pullDoctorLoop] at hev
    rcases List.mem_append.mp hev with hev | hev
    · rcases doctorRowEvs_shape pid b ev hev with rfl | rfl
      · exact .inl ⟨pid, rfl⟩
      · exact .inr ⟨pid, rfl⟩
    · exact ih ev hev

/-- The create doctor sweep emits only check/verify events. -/
theorem createDoctorLoop_events :
    ∀ (creators : List (String × TB)) (ev : Ev), ev ∈ (createDoctorLoop creators).2 →
      (∃ k, ev = .check k) ∨ (∃ k, ev = .verify k) := by
  intro creators
  induction creators with
  | nil => intro ev hev; simp [createDoctorLoop] at hev
  | cons p rest ih =>
    intro ev hev
    obtain ⟨cid, b⟩ := p
    rw [createDoctorLoop] at hev
    rcases List.mem_append.mp hev with hev | hev
    · rcases doctorRowEvs_shape cid b ev hev with rfl | rfl
      · exact .inl ⟨cid, rfl⟩
      · exact .inr ⟨cid, rfl⟩
    · exact ih ev hev

/-- When every check of the worklist returns a Bool, the install doctor
sweep succeeds. -/
theorem installDoctorLoop_total (installers : Registry) (bhv : String → TB) :
    ∀ (ts : List String),
      (∀ iid ∈ ts, (bhv iid).check = .ok true ∨ (bhv iid).check = .ok false) →
      ∃ pr, installDoctorLoop installers bhv ts = .ok pr := by
  intro ts
  induction ts with
  | nil => intro _; exact ⟨([], []), by rw [installDoctorLoop]⟩
  | cons t rest ih =>
    intro hts
    obtain ⟨pr, hpr⟩ := ih fun iid h => hts iid (List.mem_cons_of_mem _ h)
    obtain ⟨r', e'⟩ := pr
    rw [installDoctorLoop]
    cases hlook : lookupId installers t with
    | none => exact ⟨(r', e'), hpr⟩
    | some deps =>
      rcases hts t (List.mem_cons_self _ _) with hc | hc
      · cases hv : (bhv t).verify with
        | ok u => exact ⟨_, by rw [hc, hpr]⟩
        | error e => exact ⟨_, by rw [hc, hpr]⟩
      · exact ⟨_, by rw [hc, hpr]⟩

/-- C8 counterexample: in the install domain a satisfied-but-unverifiable
target is reported `installed (broken)` with reason `None` — the verify
error `"boom"` is not attached, contrary to the claim. -/
theorem c8_counterexample :
    runDoctorInstall regCurl bundlesCurl bhvBroken ⟨false, true, false, true⟩ =
      .ok ⟨0, [⟨"curl", "installed (broken)", none⟩], none,
        [.check "curl", .verify "curl"]⟩ ∧
    (bhvBroken "curl").verify = .error "boom" ∧
    (none : Option String) ≠ some "boom" := ⟨by decide, rfl, by decide⟩

/-- C8 (amended): each doctor reports `missing` when the check is false, an
ok status (`installed (ok)` / `ready`) when check and verify succeed, and a
broken status when verify raises — with the verify error attached as the
reason in the pull and create domains but with reason `None` in the install
domain; no doctor sweep ever emits an act, save or prompt event. -/
theorem c8_doctor_statuses :
    (∀ (installers : Registry) (bhv : String → TB) (ts : List String)
        (rep : List InstallRow) (evs : List Ev) (iid : String) (deps : List String),
      installDoctorLoop installers bhv ts = .ok (rep, evs) → iid ∈ ts →
      lookupId installers iid = some deps →
      ((bhv iid).check = .ok false → (⟨iid, "missing", none⟩ : InstallRow) ∈ rep) ∧
      (∀ e, (bhv iid).check = .ok true → (bhv iid).verify = .error e →
        (⟨iid, "installed (broken)", none⟩ : InstallRow) ∈ rep) ∧
      ((bhv iid).check = .ok true → (bhv iid).verify = .ok () →
        (⟨iid, "installed (ok)", none⟩ : InstallRow) ∈ rep)) ∧
    (∀ (pid : String) (b : TB) (olist : Except String (List String)) (e : String),
      pid ≠ "data_models" →
      (b.check = .ok false → pullDoctorEntry pid b olist = ⟨pid, "missing", none, none⟩) ∧
      (b.check = .ok true → b.verify = .error e →
        pullDoctorEntry pid b olist = ⟨pid, "broken", some e, none⟩) ∧
      (b.check = .ok true → b.verify = .ok () →
        pullDoctorEntry pid b olist = ⟨pid, "ready", none, none⟩)) ∧
    (∀ (b : TB) (models : List String) (e : String),
      DATA_MODELS.filter (fun m => !(models.contains m)) = [] →
      b.check = .ok true → b.verify = .error e →
      pullDoctorEntry "data_models" b (.ok models) =
        ⟨"data_models", "broken", some e, none⟩) ∧
    (∀ (b : TB) (e : String),
      (b.check = .ok false → createDoctorEntry b = ("missing", none)) ∧
      (b.check = .ok true → b.verify = .error e → createDoctorEntry b = ("broken", some e)) ∧
      (b.check = .ok true → b.verify = .ok () → createDoctorEntry b = ("ready", none))) ∧
    (∀ (installers : Registry) (bhv : String → TB) (ts : List String)
        (rep : List InstallRow) (evs : List Ev) (k : String),
      installDoctorLoop installers bhv ts = .ok (rep, evs) →
      Ev.act k ∉ evs ∧ Ev.save ∉ evs ∧ Ev.prompt ∉ evs) ∧
    (∀ (olist : Except String (List String)) (pullers : List (String × TB)) (k : String),
      Ev.act k ∉ (pullDoctorLoop olist pullers).2 ∧
      Ev.save ∉ (pullDoctorLoop olist pullers).2) ∧
    (∀ (creators : List (String × TB)) (k : String),
      Ev.act k ∉ (createDoctorLoop creators).2 ∧
      Ev.save ∉ (createDoctorLoop creators).2) := by
  refine ⟨?_, ?_, ?_, ?_, ?_, ?_, ?_⟩
  · intro installers bhv ts
    induction ts with
    | nil =>
      intro rep evs iid deps h hmem hlook
      simp at hmem
    | cons t rest ih =>
      intro rep evs iid deps h hmem hlook
      rw [installDoctorLoop] at h
      rcases List.mem_cons.mp hmem with rfl | hmem
      · split at h
        · rename_i heq
          rw [hlook] at heq
          exact absurd heq (by simp)
        · split at h
          · exact absurd h (by simp)
          · rename_i hceq
            split at h
            · exact absurd h (by simp)
            · rename_i r' e' hrest
              simp only [Except.ok.injEq, Prod.mk.injEq] at h
              obtain ⟨hrep, -⟩ := h
              subst hrep
              refine ⟨fun _ => List.mem_cons_self _ _, fun e h1 h2 => ?_, fun h1 h2 => ?_⟩
              · have := hceq.symm.trans h1
                simp at this
              · have := hceq.symm.trans h1
                simp at this
          · rename_i hceq
            split at h
            · rename_i u hveq
              split at h
              · exact absurd h (by simp)
              · rename_i r' e' hrest
                simp only [Except.ok.injEq, Prod.mk.injEq] at h
                obtain ⟨hrep, -⟩ := h
                subst hrep
                refine ⟨fun h1 => ?_, fun e h1 h2 => ?_,
                  fun h1 h2 => List.mem_cons_self _ _⟩
                · have := hceq.symm.trans h1
                  simp at this
                · have := hveq.symm.trans h2
                  simp at this
            · rename_i err hveq
              split at h
              · exact absurd h (by simp)
              · rename_i r' e' hrest
                simp only [Except.ok.injEq, Prod.mk.injEq] at h
                obtain ⟨hrep, -⟩ := h
                subst hrep
                refine ⟨fun h1 => ?_, fun e h1 h2 => List.mem_cons_self _ _,
                  fun h1 h2 => ?_⟩
                · have := hceq.symm.trans h1
                  simp at this
                · have := hveq.symm.trans h2
                  simp at this
      · split at h
        · exact ih rep evs iid deps h hmem hlook
        · split at h
          · exact absurd h (by simp)
          · split at h
            · exact absurd h (by simp)
            · rename_i r' e' hrest
              simp only [Except.ok.injEq, Prod.mk.injEq] at h
              obtain ⟨hrep, -⟩ := h
              subst hrep
              obtain ⟨p1, p2, p3⟩ := ih r' e' iid deps hrest hmem hlook
              exact ⟨fun h1 => List.mem_cons_of_mem _ (p1 h1),
                fun e h1 h2 => List.mem_cons_of_mem _ (p2 e h1 h2),
                fun h1 h2 => List.mem_cons_of_mem _ (p3 h1 h2)⟩
          · split at h
            · split at h
              · exact absurd h (by simp)
              · rename_i r' e' hrest
                simp only [Except.ok.injEq, Prod.mk.injEq] at h
                obtain ⟨hrep, -⟩ := h
                subst hrep
                obtain ⟨p1, p2, p3⟩ := ih r' e' iid deps hrest hmem hlook
                exact ⟨fun h1 => List.mem_cons_of_mem _ (p1 h1),
                  fun e h1 h2 => List.mem_cons_of_mem _ (p2 e h1 h2),
                  fun h1 h2 => List.mem_cons_of_mem _ (p3 h1 h2)⟩
            · split at h
              · exact absurd h (by simp)
              · rename_i r' e' hrest
                simp only [Except.ok.injEq, Prod.mk.injEq] at h
                obtain ⟨hrep, -⟩ := h
                subst hrep
                obtain ⟨p1, p2, p3⟩ := ih r' e' iid deps hrest hmem hlook
                exact ⟨fun h1 => List.mem_cons_of_mem _ (p1 h1),
                  fun e h1 h2 => List.mem_cons_of_mem _ (p2 e h1 h2),
                  fun h1 h2 => List.mem_cons_of_mem _ (p3 h1 h2)⟩
  · intro pid b olist e hne
    refine ⟨fun hc => ?_, fun hc hv => ?_, fun hc hv => ?_⟩
    · simp [pullDoctorEntry, hc, hne]
    · simp [pullDoctorEntry, hc, hv, hne]
    · simp [pullDoctorEntry, hc, hv, hne]
  · intro b models e hfil hc hv
    simp [pullDoctorEntry, hc, hv, hfil]
    intro x hx
    have hnx := List.filter_eq_nil_iff.mp hfil x hx
    simpa using hnx
  · intro b e
    refine ⟨fun hc => ?_, fun hc hv => ?_, fun hc hv => ?_⟩
    · simp [createDoctorEntry, hc]
    · simp [createDoctorEntry, hc, hv]
    · simp [createDoctorEntry, hc, hv]
  · intro installers bhv ts rep evs k h
    refine ⟨fun hc => ?_, fun hc => ?_, fun hc => ?_⟩ <;>
      rcases installDoctorLoop_events installers bhv ts rep evs h _ hc with ⟨k', hk⟩ | ⟨k', hk⟩ <;>
        simp at hk
  · intro olist pullers k
    refine ⟨fun hc => ?_, fun hc => ?_⟩ <;>
      rcases pullDoctorLoop_events olist pullers _ hc with ⟨k', hk⟩ | ⟨k', hk⟩ <;>
        simp at hk
  · intro creators k
    refine ⟨fun hc => ?_, fun hc => ?_⟩ <;>
      rcases createDoctorLoop_events creators _ hc with ⟨k', hk⟩ | ⟨k', hk⟩ <;>
        simp at hk

/-- Witness for C8 (amended), at concrete targets in each domain. -/
theorem c8_witness :
    (⟨"curl", "installed (broken)", none⟩ : InstallRow) ∈
      [(⟨"curl", "installed (broken)", none⟩ : InstallRow)] ∧
    pullDoctorEntry "webby" bhvBroken' (.ok []) = ⟨"webby", "broken", some "boom", none⟩ ∧
    pullDoctorEntry "data_models" bhvBroken' (.ok DATA_MODELS) =
      ⟨"data_models", "broken", some "boom", none⟩ ∧
    createDoctorEntry bhvBroken' = ("broken", some "boom") ∧
    (Ev.act "curl" ∉ [Ev.check "curl", Ev.verify "curl"] ∧
      Ev.save ∉ [Ev.check "curl", Ev.verify "curl"] ∧
      Ev.prompt ∉ [Ev.check "curl", Ev.verify "curl"]) :=
  ⟨(c8_doctor_statuses.1 regCurl bhvBroken ["curl"]
      [⟨"curl", "installed (broken)", none⟩] [.check "curl", .verify "curl"] "curl" []
      (by decide) (by decide) (by decide)).2.1 "boom" rfl rfl,
    (c8_doctor_statuses.2.1 "webby" bhvBroken' (.ok []) "boom" (by decide)).2.1 rfl rfl,
    c8_doctor_statuses.2.2.1 bhvBroken' DATA_MODELS "boom" (by decide) rfl rfl,
    (c8_doctor_statuses.2.2.2.1 bhvBroken' "boom").2.1 rfl rfl,
    c8_doctor_statuses.2.2.2.2.1 regCurl bhvBroken ["curl"]
      [⟨"curl", "installed (broken)", none⟩] [.check "curl", .verify "curl"] "curl"
      (by decide)⟩

/-- C9: `_load_state` is total and non-fatal: a missing artifact loads as
the empty map, an unparsable artifact also loads as the empty map (corrupt
state is treated as absent state), and a parsed artifact loads its
content — no case raises. -/
theorem c9_state_load_total :
    loadState .absent = [] ∧ loadState .corrupt = [] ∧
      ∀ s : StateMap, loadState (.valid s) = s :=
  ⟨rfl, rfl, fun _ => rfl⟩

/-- C10: `run_doctor` returns 0 in every domain for every combination of
target statuses (for install: whenever every check returns a Bool rather
than raising — a raising check propagates as an exception, not as a
nonzero return). -/
theorem c10_doctor_exit_zero :
    (∀ (installers bundles : Registry) (bhv : String → TB) (env : OllamaEnv),
      (∀ iid ∈ doctorTargets bundles,
        (bhv iid).check = .ok true ∨ (bhv iid).check = .ok false) →
      ∃ res, runDoctorInstall installers bundles bhv env = .ok res ∧ res.code = 0) ∧
    (∀ (pullers : List (String × TB)) (olist : Except String (List String)),
      (runDoctorPull pullers olist).code = 0) ∧
    (∀ creators : List (String × TB), (runDoctorCreate creators).code = 0) := by
  refine ⟨?_, fun _ _ => rfl, fun _ => rfl⟩
  intro installers bundles bhv env hts
  obtain ⟨⟨rep, evs⟩, hpr⟩ :=
    installDoctorLoop_total installers bhv (doctorTargets bundles) hts
  exact ⟨_, by rw [runDoctorInstall, hpr], rfl⟩

/-- Witness for C10: a doctor run whose only target is broken still exits
0 in all three domains. -/
theorem c10_witness :
    (∃ res, runDoctorInstall regCurl bundlesCurl bhvBroken ⟨true, false, true, false⟩ =
      .ok res ∧ res.code = 0) ∧
    (runDoctorPull [("data_models", bhvBroken')] (.error "ollama list failed")).code = 0 ∧
    (runDoctorCreate [("phi3_mini_json", bhvBroken')]).code = 0 :=
  ⟨c10_doctor_exit_zero.1 regCurl bundlesCurl bhvBroken ⟨true, false, true, false⟩ (by decide),
    c10_doctor_exit_zero.2.1 [("data_models", bhvBroken')] (.error "ollama list failed"),
    c10_doctor_exit_zero.2.2 [("phi3_mini_json", bhvBroken')]⟩

end Continuum
